import Mathlib

/-
Verification of the external-client protocol of `ExternalIO/bankers-bonus-client.cpp`.

The client talks to `nparties` SPDZ engines over one socket per party.  Its two
protocol primitives are embedded here over an arbitrary modulus `p`
(`gfp` is a prime field; only ring structure of `ZMod p` is used):

* `send_private_inputs` (source lines 49-90): receive one triple-share frame
  per party, reconstruct the triples by component-wise summation, check
  `A*B = C` for every input slot, then broadcast the masked values
  `values[i] + A[i]` identically to every party.
* `receive_result` (source lines 115-137): receive a 3-element frame per
  party, sum component-wise into `(Y, R, W)`, check `Y*R = W`, and return `Y`.

Network frames are modelled as lists of field elements; the wire decoding
layer (`octetStream`) is not part of the given source, so it is modelled from
the spec (see `decodeFrames`).
-/

/-- A received or sent length-framed payload: a flat list of field elements,
in the wire order the client consumes them. -/
abbrev Frame (p : ℕ) := List (ZMod p)

/-- The fatal error conditions of the client, from the spec's error taxonomy
(§7): a frame of the wrong element count, a reconstructed triple failing
`A*B = C` (with the offending slot index, source line 77), and a reconstructed
output failing `Y*R = W` (source line 133). -/
inductive ClientError where
  | framingError : ClientError
  | tripleInconsistency : ℕ → ClientError
  | outputAuthenticationFailure : ClientError
deriving DecidableEq, Repr

variable {p : ℕ}

/-- `Except.ok`-ness as a Bool, used to state that an operation proceeds
without error. -/
def exceptOk {ε α : Type _} : Except ε α → Bool
  | Except.ok _ => true
  | Except.error _ => false

instance {ε α : Type _} [DecidableEq ε] [DecidableEq α] :
    DecidableEq (Except ε α) := fun a b =>
  match a, b with
  | Except.ok x, Except.ok y =>
    if h : x = y then isTrue (by rw [h]) else isFalse (by simp [h])
  | Except.ok _, Except.error _ => isFalse (by simp)
  | Except.error _, Except.ok _ => isFalse (by simp)
  | Except.error x, Except.error y =>
    if h : x = y then isTrue (by rw [h]) else isFalse (by simp [h])

/-- Modelled from the spec: the frame decoding layer (`octetStream::Receive` /
`gfp::unpack`) is not part of the given source file.  Per the spec (§7,
FramingError), a received frame that decodes to the wrong element count is a
fatal framing error, so decoding `k` elements from each party's frame succeeds
exactly when every frame holds exactly `k` field elements; the frames are
processed in party order and the first malformed frame aborts. -/
def decodeFrames (k : ℕ) : List (Frame p) → Except ClientError (List (Frame p))
  | [] => Except.ok []
  | f :: fs =>
    if f.length = k then
      match decodeFrames k fs with
      | Except.ok rest => Except.ok (f :: rest)
      | Except.error e => Except.error e
    else Except.error ClientError.framingError

/-- One step of the triple accumulation of source lines 62-69: party shares
for slot `i` sit at frame positions `3*i`, `3*i+1`, `3*i+2`, and are added
component-wise onto the running sums (`triples[j][k] += triple_shares[k]`). -/
def accTriple (i : ℕ) (acc : ZMod p × ZMod p × ZMod p) (frame : Frame p) :
    ZMod p × ZMod p × ZMod p :=
  (acc.1 + frame.getD (3 * i) 0,
   acc.2.1 + frame.getD (3 * i + 1) 0,
   acc.2.2 + frame.getD (3 * i + 2) 0)

/-- The reconstructed triples of source lines 53-70: for each input slot, the
component-wise sum over all parties' received shares, starting from the
zero-initialised `vector<gfp>(3)`. -/
def reconstructTriples (numInputs : ℕ) (frames : List (Frame p)) :
    List (ZMod p × ZMod p × ZMod p) :=
  (List.range numInputs).map (fun i => frames.foldl (accTriple i) (0, 0, 0))

/-- The triple relation `A*B = C` that source line 75 checks per slot. -/
def tripleOk (t : ZMod p × ZMod p × ZMod p) : Prop :=
  t.1 * t.2.1 = t.2.2

instance (t : ZMod p × ZMod p × ZMod p) : Decidable (tripleOk t) := by
  unfold tripleOk
  infer_instance

/-- The check loop of source lines 73-80: scan slots in order and report the
first slot whose reconstructed triple violates `A*B = C` (the source exits
there with the slot index). -/
def firstBadTriple : List (ZMod p × ZMod p × ZMod p) → Option ℕ
  | [] => none
  | t :: ts =>
    if tripleOk t then Option.map (fun n => n + 1) (firstBadTriple ts)
    else some 0

/-- The masked-value frame of source lines 82-87: one frame holding
`values[i] + triples[i][0]` for every slot `i`, in slot order. -/
def maskedFrame (values : List (ZMod p))
    (triples : List (ZMod p × ZMod p × ZMod p)) : Frame p :=
  (values.zip triples).map (fun vt => vt.1 + vt.2.1)

/-- Shallow embedding of `send_private_inputs` (source lines 49-90).
Input: the private values and the triple-share frame received from each party
(one list entry per party, in the fixed channel order).  Output: the frame
sent to each party (source lines 88-89 send the same `octetStream` to every
socket), or the error on which the source aborts. -/
def send_private_inputs (values : List (ZMod p)) (frames : List (Frame p)) :
    Except ClientError (List (Frame p)) :=
  match decodeFrames (3 * values.length) frames with
  | Except.error e => Except.error e
  | Except.ok decoded =>
    let triples := reconstructTriples values.length decoded
    match firstBadTriple triples with
    | some i => Except.error (ClientError.tripleInconsistency i)
    | none => Except.ok (List.replicate frames.length (maskedFrame values triples))

/-- One step of the output accumulation of source lines 123-128: each party's
frame holds `(y_share, r_share, w_share)` at positions 0, 1, 2. -/
def accOutput (acc : ZMod p × ZMod p × ZMod p) (frame : Frame p) :
    ZMod p × ZMod p × ZMod p :=
  (acc.1 + frame.getD 0 0,
   acc.2.1 + frame.getD 1 0,
   acc.2.2 + frame.getD 2 0)

/-- Shallow embedding of `receive_result` (source lines 115-137): sum the
3-element frame of every party component-wise into `(Y, R, W)` (starting from
the zero-initialised `output_values`), fail unless `Y*R = W`, else return `Y`. -/
def receive_result (frames : List (Frame p)) : Except ClientError (ZMod p) :=
  match decodeFrames 3 frames with
  | Except.error e => Except.error e
  | Except.ok decoded =>
    let out := decoded.foldl accOutput (0, 0, 0)
    if out.1 * out.2.1 ≠ out.2.2 then
      Except.error ClientError.outputAuthenticationFailure
    else Except.ok out.1

/-- The component-wise sum, over all parties, of the share at frame position
`j`: the value the claims call `Σ share[j]`. -/
def sumShares (j : ℕ) (frames : List (Frame p)) : ZMod p :=
  (frames.map (fun f => f.getD j 0)).sum

/-- The reconstructed triple the client uses for input slot `i`. -/
def slotTriple (values : List (ZMod p)) (frames : List (Frame p)) (i : ℕ) :
    ZMod p × ZMod p × ZMod p :=
  (reconstructTriples values.length frames).getD i (0, 0, 0)

/-- A network event of the input-submission protocol: receiving a triple-share
frame from a party, or sending a masked-value frame to a party. -/
inductive NetEvent (p : ℕ) where
  | recvFrame : ℕ → Frame p → NetEvent p
  | sendFrame : ℕ → Frame p → NetEvent p
deriving DecidableEq, Repr

/-- Whether a network event is a receive. -/
def NetEvent.isRecv : NetEvent p → Bool
  | NetEvent.recvFrame _ _ => true
  | NetEvent.sendFrame _ _ => false

/-- The receive phase of source lines 57-70 as events: the frame of party `j`
is received, and a frame that fails to decode aborts the loop (later parties
are never received from). -/
def recvTripleEvents (k : ℕ) : ℕ → List (Frame p) → List (NetEvent p)
  | _, [] => []
  | j, f :: fs =>
    if f.length = k then NetEvent.recvFrame j f :: recvTripleEvents k (j + 1) fs
    else [NetEvent.recvFrame j f]

/-- The network-event trace of one run of `send_private_inputs`: the receive
loop (source lines 57-70), then — only when the decode and the triple check
both pass — the send loop (source lines 88-89), one send per party. -/
def send_private_inputs_events (values : List (ZMod p))
    (frames : List (Frame p)) : List (NetEvent p) :=
  let recvs := recvTripleEvents (3 * values.length) 0 frames
  match send_private_inputs values frames with
  | Except.error _ => recvs
  | Except.ok sent =>
    recvs ++ (List.range sent.length).map
      (fun j => NetEvent.sendFrame j (sent.getD j []))

/-- A socket lifecycle event of `main`. -/
inductive SocketEvent where
  | openSock : ℕ → SocketEvent
  | closeSock : ℕ → SocketEvent
deriving DecidableEq, Repr

/-- The socket lifecycle of `main` (source lines 171-194): every party socket
is opened (line 174), then the input submission and the result fetch run; each
aborts via `exit(1)` on failure (lines 78, 134), in which case the close loop
of lines 191-192 is never reached, and `close_client_socket` is called for
every socket only on the success path. -/
def mainSocketEvents (nparties : ℕ) (values : List (ZMod p))
    (tripleFrames outputFrames : List (Frame p)) : List SocketEvent :=
  let opens := (List.range nparties).map SocketEvent.openSock
  match send_private_inputs values tripleFrames with
  | Except.error _ => opens
  | Except.ok _ =>
    match receive_result outputFrames with
    | Except.error _ => opens
    | Except.ok _ => opens ++ (List.range nparties).map SocketEvent.closeSock

/-! ### Helper lemmas -/

theorem sumShares_nil (j : ℕ) : sumShares (p := p) j [] = 0 := rfl

theorem sumShares_cons (j : ℕ) (f : Frame p) (fs : List (Frame p)) :
    sumShares j (f :: fs) = f.getD j 0 + sumShares j fs := by
  simp [sumShares]

theorem decodeFrames_ok (k : ℕ) (frames : List (Frame p))
    (h : ∀ f ∈ frames, f.length = k) : decodeFrames k frames = Except.ok frames := by
  induction frames with
  | nil => rfl
  | cons f fs ih =>
    have hf : f.length = k := h f (List.mem_cons_self f fs)
    have hfs : decodeFrames k fs = Except.ok fs :=
      ih (fun g hg => h g (List.mem_cons_of_mem f hg))
    simp [decodeFrames, hf, hfs]

theorem decodeFrames_badlen (k : ℕ) (frames : List (Frame p)) (f : Frame p)
    (hmem : f ∈ frames) (hbad : f.length ≠ k) :
    decodeFrames k frames = Except.error ClientError.framingError := by
  induction frames with
  | nil => cases hmem
  | cons g gs ih =>
    by_cases hg : g.length = k
    · have hmem' : f ∈ gs := by
        cases List.mem_cons.mp hmem with
        | inl h => exact absurd (h ▸ hg) hbad
        | inr h => exact h
      simp [decodeFrames, hg, ih hmem']
    · simp [decodeFrames, hg]

theorem foldl_accTriple (i : ℕ) (frames : List (Frame p))
    (acc : ZMod p × ZMod p × ZMod p) :
    frames.foldl (accTriple i) acc =
      (acc.1 + sumShares (3 * i) frames,
       acc.2.1 + sumShares (3 * i + 1) frames,
       acc.2.2 + sumShares (3 * i + 2) frames) := by
  induction frames generalizing acc with
  | nil => simp [sumShares_nil]
  | cons f fs ih =>
    simp only [List.foldl_cons, ih, accTriple, sumShares_cons]
    exact Prod.ext (by ring) (Prod.ext (by ring) (by ring))

theorem foldl_accOutput (frames : List (Frame p))
    (acc : ZMod p × ZMod p × ZMod p) :
    frames.foldl accOutput acc =
      (acc.1 + sumShares 0 frames,
       acc.2.1 + sumShares 1 frames,
       acc.2.2 + sumShares 2 frames) := by
  induction frames generalizing acc with
  | nil => simp [sumShares_nil]
  | cons f fs ih =>
    simp only [List.foldl_cons, ih, accOutput, sumShares_cons]
    exact Prod.ext (by ring) (Prod.ext (by ring) (by ring))

theorem reconstructTriples_length (n : ℕ) (frames : List (Frame p)) :
    (reconstructTriples n frames).length = n := by
  simp [reconstructTriples]

theorem reconstructTriples_getD (n : ℕ) (frames : List (Frame p)) (i : ℕ)
    (hi : i < n) :
    (reconstructTriples n frames).getD i (0, 0, 0) =
      frames.foldl (accTriple i) (0, 0, 0) := by
  simp [reconstructTriples, List.getD_eq_getElem?_getD, List.getElem?_map,
    List.getElem?_range, hi]

theorem slotTriple_eq_sums (values : List (ZMod p)) (frames : List (Frame p))
    (i : ℕ) (hi : i < values.length) :
    slotTriple values frames i =
      (sumShares (3 * i) frames, sumShares (3 * i + 1) frames,
       sumShares (3 * i + 2) frames) := by
  rw [slotTriple, reconstructTriples_getD values.length frames i hi,
    foldl_accTriple]
  simp

theorem firstBadTriple_none_of_all (ts : List (ZMod p × ZMod p × ZMod p))
    (h : ∀ t ∈ ts, tripleOk t) : firstBadTriple ts = none := by
  induction ts with
  | nil => rfl
  | cons t ts ih =>
    have ht : tripleOk t := h t (List.mem_cons_self t ts)
    have hts := ih (fun u hu => h u (List.mem_cons_of_mem t hu))
    simp [firstBadTriple, ht, hts]

theorem firstBadTriple_all_of_none (ts : List (ZMod p × ZMod p × ZMod p))
    (h : firstBadTriple ts = none) : ∀ t ∈ ts, tripleOk t := by
  induction ts with
  | nil => intro t ht; cases ht
  | cons t ts ih =>
    by_cases ht : tripleOk t
    · intro u hu
      cases List.mem_cons.mp hu with
      | inl he => exact he ▸ ht
      | inr he =>
        have h' : firstBadTriple ts = none := by
          by_contra hne
          obtain ⟨n, hn⟩ := Option.ne_none_iff_exists'.mp hne
          rw [firstBadTriple, if_pos ht, hn] at h
          exact Option.noConfusion h
        exact ih h' u he
    · rw [firstBadTriple, if_neg ht] at h
      exact Option.noConfusion h

theorem firstBadTriple_some_of_first (ts : List (ZMod p × ZMod p × ZMod p))
    (i : ℕ) (hi : i < ts.length) (hbad : ¬ tripleOk (ts.getD i (0, 0, 0)))
    (hmin : ∀ j, j < i → tripleOk (ts.getD j (0, 0, 0))) :
    firstBadTriple ts = some i := by
  induction ts generalizing i with
  | nil => cases hi
  | cons t ts ih =>
    cases i with
    | zero =>
      have : ¬ tripleOk t := by simpa using hbad
      simp [firstBadTriple, this]
    | succ n =>
      have ht : tripleOk t := by
        have := hmin 0 (Nat.succ_pos n)
        simpa using this
      have hrec : firstBadTriple ts = some n := by
        refine ih n (by simpa using Nat.lt_of_succ_lt_succ hi) (by simpa using hbad) ?_
        intro j hj
        have := hmin (j + 1) (Nat.succ_lt_succ hj)
        simpa using this
      simp [firstBadTriple, ht, hrec]

theorem firstBadTriple_bad_of_some (ts : List (ZMod p × ZMod p × ZMod p))
    (i : ℕ) (h : firstBadTriple ts = some i) :
    i < ts.length ∧ ¬ tripleOk (ts.getD i (0, 0, 0)) := by
  induction ts generalizing i with
  | nil => exact Option.noConfusion h
  | cons t ts ih =>
    by_cases ht : tripleOk t
    · rw [firstBadTriple, if_pos ht] at h
      obtain ⟨n, hn, rfl⟩ := Option.map_eq_some'.mp h
      obtain ⟨hlen, hbad⟩ := ih n hn
      exact ⟨Nat.succ_lt_succ hlen, by simpa using hbad⟩
    · rw [firstBadTriple, if_neg ht] at h
      cases h
      exact ⟨Nat.succ_pos _, by simpa using ht⟩

theorem send_private_inputs_eq_ok (values : List (ZMod p))
    (frames : List (Frame p))
    (hlen : ∀ f ∈ frames, f.length = 3 * values.length)
    (hgood : ∀ i, i < values.length → tripleOk (slotTriple values frames i)) :
    send_private_inputs values frames =
      Except.ok (List.replicate frames.length
        (maskedFrame values (reconstructTriples values.length frames))) := by
  have hdec := decodeFrames_ok (3 * values.length) frames hlen
  have hall : ∀ t ∈ reconstructTriples values.length frames, tripleOk t := by
    intro t ht
    obtain ⟨j, hj⟩ := List.mem_iff_get.mp ht
    have hjlt : j.val < values.length :=
      Nat.lt_of_lt_of_eq j.isLt (reconstructTriples_length _ _)
    have hgd : (reconstructTriples values.length frames).getD j.val (0, 0, 0) = t := by
      rw [List.getD_eq_getElem?_getD, List.getElem?_eq_getElem j.isLt]
      simpa using congrArg some hj
    have := hgood j.val hjlt
    rwa [slotTriple, hgd] at this
  have hnone := firstBadTriple_none_of_all _ hall
  simp [send_private_inputs, hdec, hnone]

theorem send_private_inputs_eq_err (values : List (ZMod p))
    (frames : List (Frame p))
    (hlen : ∀ f ∈ frames, f.length = 3 * values.length)
    (i : ℕ) (hi : i < values.length)
    (hbad : ¬ tripleOk (slotTriple values frames i))
    (hmin : ∀ j, j < i → tripleOk (slotTriple values frames j)) :
    send_private_inputs values frames =
      Except.error (ClientError.tripleInconsistency i) := by
  have hdec := decodeFrames_ok (3 * values.length) frames hlen
  have hilt : i < (reconstructTriples values.length frames).length := by
    rwa [reconstructTriples_length]
  have hsome := firstBadTriple_some_of_first
    (reconstructTriples values.length frames) i hilt hbad
    (fun j hj => hmin j hj)
  simp [send_private_inputs, hdec, hsome]

theorem getD_replicate {α : Type _} (n : ℕ) (a : α) (i : ℕ) (d : α)
    (hi : i < n) : (List.replicate n a).getD i d = a := by
  induction n generalizing i with
  | zero => cases hi
  | succ m ih =>
    cases i with
    | zero => rfl
    | succ j => exact ih j (Nat.lt_of_succ_lt_succ hi)

theorem maskedFrame_getD (values : List (ZMod p))
    (triples : List (ZMod p × ZMod p × ZMod p))
    (hlen : values.length ≤ triples.length) (i : ℕ) (hi : i < values.length) :
    (maskedFrame values triples).getD i 0 =
      values.getD i 0 + (triples.getD i (0, 0, 0)).1 := by
  induction values generalizing triples i with
  | nil => cases hi
  | cons v vs ih =>
    cases triples with
    | nil => cases Nat.not_succ_le_zero _ hlen
    | cons t ts =>
      cases i with
      | zero => rfl
      | succ j =>
        have := ih ts (Nat.le_of_succ_le_succ hlen) j (Nat.lt_of_succ_lt_succ hi)
        simpa [maskedFrame] using this

theorem maskedFrame_length (values : List (ZMod p))
    (triples : List (ZMod p × ZMod p × ZMod p)) :
    (maskedFrame values triples).length = min values.length triples.length := by
  simp [maskedFrame]

theorem receive_result_unfolded (frames : List (Frame p))
    (hlen : ∀ f ∈ frames, f.length = 3) :
    receive_result frames =
      (if sumShares 0 frames * sumShares 1 frames ≠ sumShares 2 frames then
        Except.error ClientError.outputAuthenticationFailure
      else Except.ok (sumShares 0 frames)) := by
  have hdec := decodeFrames_ok 3 frames hlen
  simp only [receive_result, hdec, foldl_accOutput, zero_add]

theorem recvTripleEvents_all_recv (k j : ℕ) (fs : List (Frame p)) :
    ∀ e ∈ recvTripleEvents k j fs, NetEvent.isRecv e = true := by
  induction fs generalizing j with
  | nil => intro e he; cases he
  | cons f fs ih =>
    intro e he
    by_cases hf : f.length = k
    · rw [recvTripleEvents, if_pos hf] at he
      cases List.mem_cons.mp he with
      | inl h => rw [h]; rfl
      | inr h => exact ih (j + 1) e h
    · rw [recvTripleEvents, if_neg hf] at he
      cases List.mem_cons.mp he with
      | inl h => rw [h]; rfl
      | inr h => cases h

theorem closeSock_not_mem_opens (n i : ℕ) :
    SocketEvent.closeSock i ∉ (List.range n).map SocketEvent.openSock := by
  intro h
  obtain ⟨j, _, hj⟩ := List.mem_map.mp h
  exact SocketEvent.noConfusion hj

theorem closeSock_mem_closes (n i : ℕ) (hi : i < n) :
    SocketEvent.closeSock i ∈ (List.range n).map SocketEvent.closeSock :=
  List.mem_map.mpr ⟨i, List.mem_range.mpr hi, rfl⟩

theorem getD_mem_of_lt {α : Type _} (l : List α) (i : ℕ) (d : α)
    (hi : i < l.length) : l.getD i d ∈ l := by
  rw [List.getD_eq_getElem?_getD, List.getElem?_eq_getElem hi]
  simp [List.getElem_mem hi]

theorem send_private_inputs_unfolded (values : List (ZMod p))
    (frames : List (Frame p))
    (hlen : ∀ f ∈ frames, f.length = 3 * values.length) :
    send_private_inputs values frames =
      (match firstBadTriple (reconstructTriples values.length frames) with
      | some i => Except.error (ClientError.tripleInconsistency i)
      | none => Except.ok (List.replicate frames.length
          (maskedFrame values (reconstructTriples values.length frames)))) := by
  have hdec := decodeFrames_ok (3 * values.length) frames hlen
  simp [send_private_inputs, hdec]

/-! ### Claim theorems -/

/-- Claim C1: with well-formed triple frames, `send_private_inputs` proceeds
without error exactly when every slot's reconstructed triple satisfies
`A*B = C`; on the first slot `i` violating the relation it aborts with
`tripleInconsistency i`, reporting that slot index. -/
theorem claim_C1_triple_check (values : List (ZMod p)) (frames : List (Frame p))
    (hlen : ∀ f ∈ frames, f.length = 3 * values.length) :
    ((∀ i, i < values.length → tripleOk (slotTriple values frames i)) →
      exceptOk (send_private_inputs values frames) = true) ∧
    (∀ i, i < values.length → ¬ tripleOk (slotTriple values frames i) →
      (∀ j, j < i → tripleOk (slotTriple values frames j)) →
      send_private_inputs values frames =
        Except.error (ClientError.tripleInconsistency i)) ∧
    (exceptOk (send_private_inputs values frames) = false ↔
      ∃ i, i < values.length ∧ ¬ tripleOk (slotTriple values frames i)) := by
  refine ⟨?_, ?_, ?_, ?_⟩
  · intro hgood
    rw [send_private_inputs_eq_ok values frames hlen hgood]
    rfl
  · intro i hi hbad hmin
    exact send_private_inputs_eq_err values frames hlen i hi hbad hmin
  · intro hfail
    rw [send_private_inputs_unfolded values frames hlen] at hfail
    cases hbt : firstBadTriple (reconstructTriples values.length frames) with
    | none => rw [hbt] at hfail; exact Bool.noConfusion hfail
    | some i =>
      obtain ⟨hilt, hbad⟩ := firstBadTriple_bad_of_some _ i hbt
      exact ⟨i, Nat.lt_of_lt_of_eq hilt (reconstructTriples_length _ _), hbad⟩
  · rintro ⟨i, hi, hbad⟩
    cases hbt : firstBadTriple (reconstructTriples values.length frames) with
    | none =>
      have hall := firstBadTriple_all_of_none _ hbt
      have hilt : i < (reconstructTriples values.length frames).length := by
        rw [reconstructTriples_length]; exact hi
      exact absurd (hall _ (getD_mem_of_lt _ i (0, 0, 0) hilt)) hbad
    | some j =>
      rw [send_private_inputs_unfolded values frames hlen, hbt]
      rfl

/-- Claim C1 witness: a single party reporting the triple `(1, 1, 5)` for one
input slot makes the reconstructed triple violate `1*1 = 5` at slot 0, and the
operation aborts reporting slot 0. -/
theorem claim_C1_witness :
    send_private_inputs (p := 101) [7] [[1, 1, 5]] =
      Except.error (ClientError.tripleInconsistency 0) :=
  (claim_C1_triple_check [7] [[1, 1, 5]] (by decide)).2.1 0 (by decide)
    (by decide) (fun j hj => absurd hj (Nat.not_lt_zero j))

/-- Claim C2: the reconstructed triple of every input slot `i` is the
component-wise sum over all parties of the received shares, which for party
`j` sit at frame positions `3*i`, `3*i+1`, `3*i+2`. -/
theorem claim_C2_componentwise_sum (numInputs : ℕ) (frames : List (Frame p))
    (i : ℕ) (hi : i < numInputs) :
    (reconstructTriples numInputs frames).getD i (0, 0, 0) =
      (sumShares (3 * i) frames, sumShares (3 * i + 1) frames,
       sumShares (3 * i + 2) frames) := by
  rw [reconstructTriples_getD numInputs frames i hi, foldl_accTriple]
  simp

/-- Claim C2 witness: with three parties and one input slot, the reconstructed
triple is the component-wise sum of the three parties' shares. -/
theorem claim_C2_witness :
    (reconstructTriples (p := 101) 1 [[1, 1, 5], [2, 1, 5], [2, 1, 5]]).getD 0
        (0, 0, 0) =
      (sumShares (3 * 0) [[1, 1, 5], [2, 1, 5], [2, 1, 5]],
       sumShares (3 * 0 + 1) [[1, 1, 5], [2, 1, 5], [2, 1, 5]],
       sumShares (3 * 0 + 2) [[1, 1, 5], [2, 1, 5], [2, 1, 5]]) :=
  claim_C2_componentwise_sum 1 [[1, 1, 5], [2, 1, 5], [2, 1, 5]] 0 (by decide)

/-- Claim C3: on a successful run, the frame broadcast to every party carries,
at slot `i`, exactly `values[i] + A[i]` where `A[i]` is the first component of
the reconstructed triple of slot `i`. -/
theorem claim_C3_masked_value (values : List (ZMod p)) (frames : List (Frame p))
    (hlen : ∀ f ∈ frames, f.length = 3 * values.length)
    (hgood : ∀ i, i < values.length → tripleOk (slotTriple values frames i))
    (i : ℕ) (hi : i < values.length) :
    ∃ sent, send_private_inputs values frames = Except.ok sent ∧
      ∀ fr ∈ sent, fr.getD i 0 =
        values.getD i 0 + (slotTriple values frames i).1 := by
  refine ⟨_, send_private_inputs_eq_ok values frames hlen hgood, ?_⟩
  intro fr hfr
  rw [List.eq_of_mem_replicate hfr]
  rw [maskedFrame_getD values _ (by rw [reconstructTriples_length]) i hi]
  rfl

/-- Claim C3 witness: three parties' triple shares reconstruct to
`A = 5, B = 3, C = 15` (and `5*3 = 15` holds in `ZMod 101`); submitting the
value 7 broadcasts the masked value `7 + 5 = 12` in slot 0 of every sent
frame. -/
theorem claim_C3_witness :
    ∃ sent, send_private_inputs (p := 101) [7] [[1, 1, 5], [2, 1, 5], [2, 1, 5]] =
        Except.ok sent ∧
      ∀ fr ∈ sent, fr.getD 0 0 =
        List.getD [7] 0 0 +
          (slotTriple [7] [[1, 1, 5], [2, 1, 5], [2, 1, 5]] 0).1 :=
  claim_C3_masked_value [7] [[1, 1, 5], [2, 1, 5], [2, 1, 5]] (by decide)
    (by decide) 0 (by decide)

/-- Claim C4: on a successful run the broadcast is identical for every party:
one frame is sent per party, and the frames sent to any two parties `j` and
`k` are equal. -/
theorem claim_C4_broadcast_identical (values : List (ZMod p))
    (frames : List (Frame p))
    (hlen : ∀ f ∈ frames, f.length = 3 * values.length)
    (hgood : ∀ i, i < values.length → tripleOk (slotTriple values frames i))
    (j k : ℕ) (hj : j < frames.length) (hk : k < frames.length) :
    ∃ sent, send_private_inputs values frames = Except.ok sent ∧
      sent.length = frames.length ∧ sent.getD j [] = sent.getD k [] := by
  refine ⟨_, send_private_inputs_eq_ok values frames hlen hgood, ?_, ?_⟩
  · exact List.length_replicate _ _
  · rw [getD_replicate _ _ j _ hj, getD_replicate _ _ k _ hk]

/-- Claim C4 witness: with three parties and a valid reconstructed triple, the
frames sent to parties 0 and 2 are equal. -/
theorem claim_C4_witness :
    ∃ sent, send_private_inputs (p := 101) [7] [[1, 1, 5], [2, 1, 5], [2, 1, 5]] =
        Except.ok sent ∧
      sent.length = 3 ∧ sent.getD 0 [] = sent.getD 2 [] :=
  claim_C4_broadcast_identical [7] [[1, 1, 5], [2, 1, 5], [2, 1, 5]]
    (by decide) (by decide) 0 2 (by decide) (by decide)

/-- Claim C5: with well-formed 3-element output frames whose component-wise
sums `(Y, R, W)` satisfy `Y*R = W`, `receive_result` returns exactly
`Y = Σ y_share`; and it is deterministic on a fixed input share sequence. -/
theorem claim_C5_result_value (frames : List (Frame p))
    (hlen : ∀ f ∈ frames, f.length = 3)
    (hauth : sumShares 0 frames * sumShares 1 frames = sumShares 2 frames) :
    receive_result frames = Except.ok (sumShares 0 frames) ∧
      receive_result frames = receive_result frames := by
  refine ⟨?_, rfl⟩
  rw [receive_result_unfolded frames hlen, if_neg (not_not_intro hauth)]

/-- Claim C5 witness: one party's output shares sum to
`(Y, R, W) = (2, 3, 6)` with `2*3 = 6`, and the reconstructed `Y` is
returned. -/
theorem claim_C5_witness :
    receive_result (p := 101) [[2, 3, 6]] =
        Except.ok (sumShares 0 [[2, 3, 6]]) ∧
      receive_result (p := 101) [[2, 3, 6]] = receive_result [[2, 3, 6]] :=
  claim_C5_result_value [[2, 3, 6]] (by decide) (by decide)

/-- Claim C6: with well-formed 3-element output frames whose component-wise
sums violate `Y*R = W`, `receive_result` fails with
`outputAuthenticationFailure` and returns no value. -/
theorem claim_C6_auth_failure (frames : List (Frame p))
    (hlen : ∀ f ∈ frames, f.length = 3)
    (hbad : sumShares 0 frames * sumShares 1 frames ≠ sumShares 2 frames) :
    receive_result frames =
      Except.error ClientError.outputAuthenticationFailure := by
  rw [receive_result_unfolded frames hlen, if_pos hbad]

/-- Claim C6 witness: three parties' output shares sum to
`(Y, R, W) = (1, 4, 5)`, and since `1*4 = 4 ≠ 5` the operation fails with the
authentication error. -/
theorem claim_C6_witness :
    receive_result (p := 101) [[0, 1, 2], [1, 1, 2], [0, 2, 1]] =
      Except.error ClientError.outputAuthenticationFailure :=
  claim_C6_auth_failure [[0, 1, 2], [1, 1, 2], [0, 2, 1]] (by decide)
    (by decide)

/-- Claim C7: in every run of the input-submission protocol the event trace
splits into a receive phase followed by a send phase (every receive strictly
precedes every send), and a run that fails (in particular on triple
inconsistency) contains no send event at all: no masked value is ever sent
before all triple frames are in and every slot check has passed. -/
theorem claim_C7_receive_before_send (values : List (ZMod p))
    (frames : List (Frame p)) :
    (∃ rs ss, send_private_inputs_events values frames = rs ++ ss ∧
      (∀ e ∈ rs, NetEvent.isRecv e = true) ∧
      (∀ e ∈ ss, NetEvent.isRecv e = false)) ∧
    (exceptOk (send_private_inputs values frames) = false →
      ∀ e ∈ send_private_inputs_events values frames,
        NetEvent.isRecv e = true) := by
  constructor
  · cases hres : send_private_inputs values frames with
    | error err =>
      refine ⟨recvTripleEvents (3 * values.length) 0 frames, [], ?_, ?_, ?_⟩
      · simp [send_private_inputs_events, hres]
      · exact recvTripleEvents_all_recv _ _ frames
      · intro e he; cases he
    | ok sent =>
      refine ⟨recvTripleEvents (3 * values.length) 0 frames,
        (List.range sent.length).map
          (fun j => NetEvent.sendFrame j (sent.getD j [])), ?_, ?_, ?_⟩
      · simp [send_private_inputs_events, hres]
      · exact recvTripleEvents_all_recv _ _ frames
      · intro e he
        obtain ⟨j, _, hj⟩ := List.mem_map.mp he
        rw [← hj]; rfl
  · intro hfail e he
    cases hres : send_private_inputs values frames with
    | ok sent => rw [hres] at hfail; simp [exceptOk] at hfail
    | error err =>
      have hev : send_private_inputs_events values frames =
          recvTripleEvents (3 * values.length) 0 frames := by
        simp [send_private_inputs_events, hres]
      rw [hev] at he
      exact recvTripleEvents_all_recv _ _ frames e he

/-- Claim C7 witness: in a run whose single reconstructed triple `(1, 1, 5)`
fails the check, the received frame is in the trace, and by the theorem every
trace event of that failing run is a receive. -/
theorem claim_C7_witness :
    NetEvent.isRecv (NetEvent.recvFrame (p := 101) 0 [1, 1, 5]) = true :=
  (claim_C7_receive_before_send [7] [[1, 1, 5]]).2 (by decide) _ (by decide)

/-- Claim C8: a received output frame that decodes to an element count other
than 3 makes `receive_result` fail with the (spec-modelled) framing error
rather than proceed. -/
theorem claim_C8_framing_error (frames : List (Frame p)) (f : Frame p)
    (hmem : f ∈ frames) (hbad : f.length ≠ 3) :
    receive_result frames = Except.error ClientError.framingError := by
  simp [receive_result, decodeFrames_badlen 3 frames f hmem hbad]

/-- Claim C8 witness: a 2-element output frame aborts the result fetch with a
framing error. -/
theorem claim_C8_witness :
    receive_result (p := 101) [[1, 2]] =
      Except.error ClientError.framingError :=
  claim_C8_framing_error [[1, 2]] [1, 2] (by decide) (by decide)

/-- Claim C9 counterexample: a run whose triple check fails (single party
reporting `(1, 1, 5)`, so `1*1 ≠ 5`) opens socket 0 but its trace contains no
close for socket 0: the source aborts via `exit(1)` at line 78 before the
close loop of lines 191-192, so the claim that every failure path closes the
sockets is false of the program's own actions. -/
theorem claim_C9_counterexample :
    SocketEvent.openSock 0 ∈
        mainSocketEvents (p := 101) 1 [7] [[1, 1, 5]] [[2, 3, 6]] ∧
      SocketEvent.closeSock 0 ∉
        mainSocketEvents (p := 101) 1 [7] [[1, 1, 5]] [[2, 3, 6]] := by
  decide

/-- Claim C9 (amended): `close_client_socket` is called for every party socket
exactly on the success path; on every failure path (triple inconsistency,
output authentication failure, framing error) the client terminates via
`exit(1)` without issuing any close, leaving release to process teardown. -/
theorem claim_C9_close_on_success (nparties : ℕ) (values : List (ZMod p))
    (tripleFrames outputFrames : List (Frame p)) :
    ((exceptOk (send_private_inputs values tripleFrames) = true →
      exceptOk (receive_result outputFrames) = true →
      ∀ i, i < nparties →
        SocketEvent.closeSock i ∈
          mainSocketEvents nparties values tripleFrames outputFrames)) ∧
    (exceptOk (send_private_inputs values tripleFrames) = false →
      ∀ i, SocketEvent.closeSock i ∉
        mainSocketEvents nparties values tripleFrames outputFrames) ∧
    (exceptOk (receive_result outputFrames) = false →
      ∀ i, SocketEvent.closeSock i ∉
        mainSocketEvents nparties values tripleFrames outputFrames) := by
  refine ⟨?_, ?_, ?_⟩
  · intro hsend hrecv i hi
    cases hres : send_private_inputs values tripleFrames with
    | error err => rw [hres] at hsend; simp [exceptOk] at hsend
    | ok sent =>
      cases hres' : receive_result outputFrames with
      | error err => rw [hres'] at hrecv; simp [exceptOk] at hrecv
      | ok y =>
        have hev : mainSocketEvents nparties values tripleFrames outputFrames =
            (List.range nparties).map SocketEvent.openSock ++
              (List.range nparties).map SocketEvent.closeSock := by
          simp [mainSocketEvents, hres, hres']
        rw [hev]
        exact List.mem_append_right _ (closeSock_mem_closes nparties i hi)
  · intro hsend i
    cases hres : send_private_inputs values tripleFrames with
    | ok sent => rw [hres] at hsend; simp [exceptOk] at hsend
    | error err =>
      have hev : mainSocketEvents nparties values tripleFrames outputFrames =
          (List.range nparties).map SocketEvent.openSock := by
        simp [mainSocketEvents, hres]
      rw [hev]
      exact closeSock_not_mem_opens nparties i
  · intro hrecv i
    cases hres : send_private_inputs values tripleFrames with
    | error err =>
      have hev : mainSocketEvents nparties values tripleFrames outputFrames =
          (List.range nparties).map SocketEvent.openSock := by
        simp [mainSocketEvents, hres]
      rw [hev]
      exact closeSock_not_mem_opens nparties i
    | ok sent =>
      cases hres' : receive_result outputFrames with
      | ok y => rw [hres'] at hrecv; simp [exceptOk] at hrecv
      | error err =>
        have hev : mainSocketEvents nparties values tripleFrames outputFrames =
            (List.range nparties).map SocketEvent.openSock := by
          simp [mainSocketEvents, hres, hres']
        rw [hev]
        exact closeSock_not_mem_opens nparties i

/-- Claim C9 witness: on a run where both the triple check and the output
authentication pass, socket 0 is closed. -/
theorem claim_C9_witness :
    SocketEvent.closeSock 0 ∈
      mainSocketEvents (p := 101) 1 [7] [[1, 1, 1]] [[2, 3, 6]] :=
  (claim_C9_close_on_success 1 [7] [[1, 1, 1]] [[2, 3, 6]]).1 (by decide)
    (by decide) 0 (by decide)

/-- Claim C10: with zero parties, `receive_result` receives nothing, the
component-wise sums are all the zero field element, the authentication check
`0*0 = 0` passes vacuously, and the zero field element is returned as an
authenticated result. -/
theorem claim_C10_zero_parties (q : ℕ) :
    receive_result (p := q) [] = Except.ok 0 := by
  rw [receive_result_unfolded [] (fun f hf => absurd hf (List.not_mem_nil f))]
  simp [sumShares_nil]
